import Mathlib

/-!
Shallow embedding of the Layer drawing-context tracker, the time-span /
cross-staff resolver, the clef lookup and the mensural cast-off passes of
the verovio `vrv::Layer` class (src/include/vrv/layer.h).

The header under src/ declares all methods but gives inline bodies only for
the accessors, `HasStaffDef`, `HasCautionStaffDef` and the cross-staff flag
setters.  Those are embedded directly from the source.  Every other method
body is absent from src/; the corresponding definitions below are modelled
from the specification, each marked by a doc comment starting with
`Modelled from the spec:`.
-/

namespace vrv

/-- A clef object, modelled as a handle into an arena of definition-change
objects (design note of the spec). -/
structure Clef where
  id : Nat
deriving DecidableEq, Repr

/-- A key-signature object, as an arena handle. -/
structure KeySig where
  id : Nat
deriving DecidableEq, Repr

/-- A mensuration object, as an arena handle. -/
structure Mensur where
  id : Nat
deriving DecidableEq, Repr

/-- A meter-signature object, as an arena handle. -/
structure MeterSig where
  id : Nat
deriving DecidableEq, Repr

/-- A meter-signature-group object, as an arena handle. -/
structure MeterSigGrp where
  id : Nat
deriving DecidableEq, Repr

/-- The stem direction enumeration `data_STEMDIRECTION` with values
NONE, up and down. -/
inductive data_STEMDIRECTION where
  | STEMDIRECTION_NONE
  | STEMDIRECTION_up
  | STEMDIRECTION_down
deriving DecidableEq, Repr

/-- A layer element: its absolute onset time and duration (seeded by the
onset/offset initialization pass) and, when the element is a clef change,
the clef it carries. -/
structure LayerElem where
  onset : ℚ
  dur : ℚ
  clefOfElem : Option Clef
deriving DecidableEq, Repr

/-- The mutable drawing state of `vrv::Layer`: stem direction, the two
cross-staff participation flags, the current staff-definition slots with the
key-signature-cancellation flag, and the cautionary staff-definition slots
with their own cancellation flag.  Additionally the layer's logical voice
number `n` (the `AttNInteger` N attribute, possibly negative for cross-staff
content) and its ordered children. -/
structure Layer where
  n : Int
  elements : List LayerElem
  m_drawingStemDir : data_STEMDIRECTION
  m_crossStaffFromBelow : Bool
  m_crossStaffFromAbove : Bool
  m_staffDefClef : Option Clef
  m_staffDefKeySig : Option KeySig
  m_staffDefMensur : Option Mensur
  m_staffDefMeterSig : Option MeterSig
  m_staffDefMeterSigGrp : Option MeterSigGrp
  m_drawKeySigCancellation : Bool
  m_cautionStaffDefClef : Option Clef
  m_cautionStaffDefKeySig : Option KeySig
  m_cautionStaffDefMensur : Option Mensur
  m_cautionStaffDefMeterSig : Option MeterSig
  m_drawCautionKeySigCancel : Bool
deriving DecidableEq, Repr

namespace Layer

/-- `GetDrawingStemDir() const` accessor (inline in layer.h). -/
def GetDrawingStemDirCached (l : Layer) : data_STEMDIRECTION :=
  l.m_drawingStemDir

/-- `SetDrawingStemDir` setter (inline in layer.h). -/
def SetDrawingStemDir (l : Layer) (d : data_STEMDIRECTION) : Layer :=
  { l with m_drawingStemDir := d }

/-- `DrawKeySigCancellation` accessor (inline in layer.h). -/
def DrawKeySigCancellation (l : Layer) : Bool :=
  l.m_drawKeySigCancellation

/-- `GetStaffDefClef` accessor (inline in layer.h). -/
def GetStaffDefClef (l : Layer) : Option Clef :=
  l.m_staffDefClef

/-- `GetStaffDefKeySig` accessor (inline in layer.h). -/
def GetStaffDefKeySig (l : Layer) : Option KeySig :=
  l.m_staffDefKeySig

/-- `GetStaffDefMensur` accessor (inline in layer.h). -/
def GetStaffDefMensur (l : Layer) : Option Mensur :=
  l.m_staffDefMensur

/-- `GetStaffDefMeterSig` accessor (inline in layer.h). -/
def GetStaffDefMeterSig (l : Layer) : Option MeterSig :=
  l.m_staffDefMeterSig

/-- `GetStaffDefMeterSigGrp` accessor (inline in layer.h). -/
def GetStaffDefMeterSigGrp (l : Layer) : Option MeterSigGrp :=
  l.m_staffDefMeterSigGrp

/-- `HasStaffDef` (inline in layer.h): true when any one of the five current
staff-definition slots is populated. -/
def HasStaffDef (l : Layer) : Bool :=
  l.m_staffDefClef.isSome || l.m_staffDefKeySig.isSome || l.m_staffDefMensur.isSome ||
    l.m_staffDefMeterSig.isSome || l.m_staffDefMeterSigGrp.isSome

/-- `DrawCautionKeySigCancel` accessor (inline in layer.h). -/
def DrawCautionKeySigCancel (l : Layer) : Bool :=
  l.m_drawCautionKeySigCancel

/-- `GetCautionStaffDefClef` accessor (inline in layer.h). -/
def GetCautionStaffDefClef (l : Layer) : Option Clef :=
  l.m_cautionStaffDefClef

/-- `GetCautionStaffDefKeySig` accessor (inline in layer.h). -/
def GetCautionStaffDefKeySig (l : Layer) : Option KeySig :=
  l.m_cautionStaffDefKeySig

/-- `GetCautionStaffDefMensur` accessor (inline in layer.h). -/
def GetCautionStaffDefMensur (l : Layer) : Option Mensur :=
  l.m_cautionStaffDefMensur

/-- `GetCautionStaffDefMeterSig` accessor (inline in layer.h). -/
def GetCautionStaffDefMeterSig (l : Layer) : Option MeterSig :=
  l.m_cautionStaffDefMeterSig

/-- `HasCautionStaffDef` (inline in layer.h): true when any one of the four
cautionary staff-definition slots is populated (there is no cautionary
meter-signature-group slot). -/
def HasCautionStaffDef (l : Layer) : Bool :=
  l.m_cautionStaffDefClef.isSome || l.m_cautionStaffDefKeySig.isSome ||
    l.m_cautionStaffDefMensur.isSome || l.m_cautionStaffDefMeterSig.isSome

/-- `SetCrossStaffFromAbove` setter (inline in layer.h). -/
def SetCrossStaffFromAbove (l : Layer) (crossStaff : Bool) : Layer :=
  { l with m_crossStaffFromAbove := crossStaff }

/-- `HasCrossStaffFromAbove` accessor (inline in layer.h). -/
def HasCrossStaffFromAbove (l : Layer) : Bool :=
  l.m_crossStaffFromAbove

/-- `SetCrossStaffFromBelow` setter (inline in layer.h). -/
def SetCrossStaffFromBelow (l : Layer) (crossStaff : Bool) : Layer :=
  { l with m_crossStaffFromBelow := crossStaff }

/-- `HasCrossStaffFromBelow` accessor (inline in layer.h). -/
def HasCrossStaffFromBelow (l : Layer) : Bool :=
  l.m_crossStaffFromBelow

/-- Modelled from the spec: the body of `Layer::ResetStaffDefObjects` is not
under src/ (layer.h only declares it).  The spec says it clears all current
and all cautionary staff-definition slots and both key-signature-cancellation
flags. -/
def ResetStaffDefObjects (l : Layer) : Layer :=
  { l with
    m_staffDefClef := none
    m_staffDefKeySig := none
    m_staffDefMensur := none
    m_staffDefMeterSig := none
    m_staffDefMeterSigGrp := none
    m_drawKeySigCancellation := false
    m_cautionStaffDefClef := none
    m_cautionStaffDefKeySig := none
    m_cautionStaffDefMensur := none
    m_cautionStaffDefMeterSig := none
    m_drawCautionKeySigCancel := false }

end Layer

/-- A staff-definition change object (`vrv::StaffDef`), reduced to the slots
the Layer merge reads: each of clef, key signature, mensuration, meter
signature and meter-signature group is independently optional, plus whether
the key change requires drawing a cancellation of the previous key. -/
structure StaffDef where
  clef : Option Clef
  keySig : Option KeySig
  mensur : Option Mensur
  meterSig : Option MeterSig
  meterSigGrp : Option MeterSigGrp
  keySigCancel : Bool
deriving DecidableEq, Repr

namespace StaffDef

/-- Two staff-definition sources are disjoint when no slot is populated in
both. -/
def Disjoint (a b : StaffDef) : Prop :=
  ¬(a.clef.isSome ∧ b.clef.isSome) ∧ ¬(a.keySig.isSome ∧ b.keySig.isSome) ∧
    ¬(a.mensur.isSome ∧ b.mensur.isSome) ∧ ¬(a.meterSig.isSome ∧ b.meterSig.isSome) ∧
    ¬(a.meterSigGrp.isSome ∧ b.meterSigGrp.isSome)

instance (a b : StaffDef) : Decidable (Disjoint a b) := by
  unfold Disjoint
  infer_instance

/-- The slot-wise union of two staff-definition sources (left-biased; only
used under disjointness). -/
def union (a b : StaffDef) : StaffDef where
  clef := if a.clef.isSome then a.clef else b.clef
  keySig := if a.keySig.isSome then a.keySig else b.keySig
  mensur := if a.mensur.isSome then a.mensur else b.mensur
  meterSig := if a.meterSig.isSome then a.meterSig else b.meterSig
  meterSigGrp := if a.meterSigGrp.isSome then a.meterSigGrp else b.meterSigGrp
  keySigCancel := a.keySigCancel || b.keySigCancel

end StaffDef

namespace Layer

/-- Modelled from the spec: the body of `Layer::SetDrawingStaffDefValues` is
not under src/ (layer.h only declares it).  The spec says it copies forward
whichever of clef, key signature, mensuration, meter signature and
meter-signature group are present in the source into the current slots,
sets the key-signature-cancellation flag if the key change requires drawing
a cancellation, and does not clear slots the source does not mention
(additive merge). -/
def SetDrawingStaffDefValues (l : Layer) (currentStaffDef : StaffDef) : Layer :=
  { l with
    m_staffDefClef :=
      if currentStaffDef.clef.isSome then currentStaffDef.clef else l.m_staffDefClef
    m_staffDefKeySig :=
      if currentStaffDef.keySig.isSome then currentStaffDef.keySig else l.m_staffDefKeySig
    m_staffDefMensur :=
      if currentStaffDef.mensur.isSome then currentStaffDef.mensur else l.m_staffDefMensur
    m_staffDefMeterSig :=
      if currentStaffDef.meterSig.isSome then currentStaffDef.meterSig else l.m_staffDefMeterSig
    m_staffDefMeterSigGrp :=
      if currentStaffDef.meterSigGrp.isSome then currentStaffDef.meterSigGrp
      else l.m_staffDefMeterSigGrp
    m_drawKeySigCancellation :=
      if currentStaffDef.keySigCancel then true else l.m_drawKeySigCancellation }

/-- Modelled from the spec: the body of `Layer::SetDrawingCautionValues` is
not under src/ (layer.h only declares it).  Same merge semantics as
`SetDrawingStaffDefValues` but targeting the cautionary slots (which have no
meter-signature-group slot). -/
def SetDrawingCautionValues (l : Layer) (currentStaffDef : StaffDef) : Layer :=
  { l with
    m_cautionStaffDefClef :=
      if currentStaffDef.clef.isSome then currentStaffDef.clef else l.m_cautionStaffDefClef
    m_cautionStaffDefKeySig :=
      if currentStaffDef.keySig.isSome then currentStaffDef.keySig else l.m_cautionStaffDefKeySig
    m_cautionStaffDefMensur :=
      if currentStaffDef.mensur.isSome then currentStaffDef.mensur else l.m_cautionStaffDefMensur
    m_cautionStaffDefMeterSig :=
      if currentStaffDef.meterSig.isSome then currentStaffDef.meterSig
      else l.m_cautionStaffDefMeterSig
    m_drawCautionKeySigCancel :=
      if currentStaffDef.keySigCancel then true else l.m_drawCautionKeySigCancel }

end Layer

/-- A staff of the score tree: an ordered sequence of layers. -/
structure Staff where
  layers : List Layer
deriving DecidableEq, Repr

/-- A measure of the score tree: an ordered sequence of staves, addressed by
0-based index. -/
structure Measure where
  staves : List Staff
deriving DecidableEq, Repr

/-- The layers of the staff at a given index of a measure (empty when the
index is out of range). -/
def Measure.layersAt (m : Measure) (i : Nat) : List Layer :=
  ((m.staves.get? i).map Staff.layers).getD []

/-- Modelled from the spec: the overlap test of the time-span resolver
(bodies of the `GetLayersNInTimeSpan` family are not under src/).  An
element overlaps the window iff
`elementStart < time + duration && elementStart + elementDuration > time`
(half-open-interval intersection). -/
def overlapsTimeSpan (time duration : ℚ) (e : LayerElem) : Bool :=
  decide (e.onset < time + duration) && decide (e.onset + e.dur > time)

/-- A layer has some element overlapping the given time window. -/
def Layer.soundsInTimeSpan (l : Layer) (time duration : ℚ) : Bool :=
  l.elements.any (overlapsTimeSpan time duration)

/-- Modelled from the spec: the candidate staves of the time-span resolver.
Within the target measure the resolver enumerates the named staff plus any
staves known to host cross-staff content from/to it: the staff above when one
of its layers carries content from below (`m_crossStaffFromBelow`), and the
staff below when one of its layers carries content from above
(`m_crossStaffFromAbove`).  Cross-staff hosting layers contribute under
their logical (possibly negative) N. -/
def candidateLayers (measure : Measure) (staff : Nat) : List Layer :=
  let own := measure.layersAt staff
  let fromAbove :=
    if staff = 0 then []
    else (measure.layersAt (staff - 1)).filter (·.m_crossStaffFromBelow)
  let fromBelow := (measure.layersAt (staff + 1)).filter (·.m_crossStaffFromAbove)
  own ++ fromAbove ++ fromBelow

/-- Modelled from the spec: `Layer::GetLayersNInTimeSpan` (body not under
src/).  Returns the set of distinct logical layer numbers N (including
synthetic negative cross-staff numbers) of the candidate layers having some
element overlapping the window `[time, time + duration)`. -/
def GetLayersNInTimeSpan (time duration : ℚ) (measure : Measure) (staff : Nat) : Finset Int :=
  (((candidateLayers measure staff).filter (·.soundsInTimeSpan time duration)).map
    Layer.n).toFinset

/-- Modelled from the spec: `Layer::GetLayerCountInTimeSpan` (body not under
src/), the count variant of `GetLayersNInTimeSpan`. -/
def GetLayerCountInTimeSpan (time duration : ℚ) (measure : Measure) (staff : Nat) : Nat :=
  (GetLayersNInTimeSpan time duration measure staff).card

/-- Modelled from the spec: `Layer::GetLayersNForTimeSpanOf` (body not under
src/), the element-based convenience wrapper around `GetLayersNInTimeSpan`,
using the time window occupied by the element. -/
def GetLayersNForTimeSpanOf (element : LayerElem) (measure : Measure) (staff : Nat) :
    Finset Int :=
  GetLayersNInTimeSpan element.onset element.dur measure staff

/-- Modelled from the spec: the stem-direction rule of
`Layer::GetDrawingStemDir(LayerElement *)` (body not under src/).  If the
staff has exactly one layer the direction is left unset
(`STEMDIRECTION_NONE`); if multiple layers coexist, the layer ordered first
(lower index) is assigned up and every later layer down. -/
def GetDrawingStemDirInStaff (layerIdx numLayersInStaff : Nat) : data_STEMDIRECTION :=
  if numLayersInStaff ≤ 1 then data_STEMDIRECTION.STEMDIRECTION_NONE
  else if layerIdx = 0 then data_STEMDIRECTION.STEMDIRECTION_up
  else data_STEMDIRECTION.STEMDIRECTION_down

/-- The clef carried by an element, when the element is a clef change. -/
def clefValue (e : LayerElem) : Option Clef :=
  e.clefOfElem

/-- Modelled from the spec: the backward scan of `Layer::GetClef` (body not
under src/).  Scans the given elements backward (last element first) and
returns the first clef found, none when no clef is present. -/
def scanBackClef : List LayerElem → Option Clef
  | [] => none
  | e :: rest =>
    match scanBackClef rest with
    | some c => some c
    | none => clefValue e

/-- Modelled from the spec: `Layer::GetClef` (body not under src/).  Scans
this layer's element sequence backward from the test element's draw position
(index `i`) until a clef element is found; returns none when no clef exists
before the start of the layer. -/
def Layer.GetClef (l : Layer) (i : Nat) : Option Clef :=
  scanBackClef (l.elements.take i)

/-- First segment of the mensural cast-off pass: starting from accumulated
duration `t`, take elements until the accumulated duration reaches the
barline-equivalent position `measureDur`; returns the segment and the
remaining elements. -/
def takeMeasure (measureDur : ℚ) : ℚ → List LayerElem → List LayerElem × List LayerElem
  | _, [] => ([], [])
  | t, e :: rest =>
    if t + e.dur < measureDur then
      let p := takeMeasure measureDur (t + e.dur) rest
      (e :: p.1, p.2)
    else ([e], rest)

theorem takeMeasure_length_le (measureDur : ℚ) :
    ∀ (t : ℚ) (xs : List LayerElem), (takeMeasure measureDur t xs).2.length ≤ xs.length := by
  intro t xs
  induction xs generalizing t with
  | nil => simp [takeMeasure]
  | cons e rest ih =>
    simp only [takeMeasure]
    split
    · exact Nat.le_succ_of_le (ih _)
    · exact Nat.le_succ _

theorem takeMeasure_append (measureDur : ℚ) :
    ∀ (t : ℚ) (xs : List LayerElem),
      (takeMeasure measureDur t xs).1 ++ (takeMeasure measureDur t xs).2 = xs := by
  intro t xs
  induction xs generalizing t with
  | nil => simp [takeMeasure]
  | cons e rest ih =>
    simp only [takeMeasure]
    split
    · simpa using ih (t + e.dur)
    · simp

/-- Modelled from the spec: `Layer::ConvertToCastOffMensural` (body not
under src/).  Rewrites the layer's element sequence into a sequence of
measure segments, splitting the sequence at the barline-equivalent positions
the mensural rules imply (cumulative duration reaching the measure
duration).  The element order and timing within the segments are kept. -/
def ConvertToCastOffMensural (measureDur : ℚ) (xs : List LayerElem) :
    List (List LayerElem) :=
  match xs with
  | [] => []
  | e :: rest =>
    let p := takeMeasure measureDur e.dur rest
    (e :: p.1) :: ConvertToCastOffMensural measureDur p.2
termination_by xs.length
decreasing_by
  simp only [List.length_cons]
  exact Nat.lt_succ_of_le (takeMeasure_length_le measureDur e.dur rest)

/-- Modelled from the spec: `Layer::ConvertToUnCastOffMensural` (body not
under src/).  The inverse pass: restores the single element sequence by
concatenating the cast-off measure segments in order. -/
def ConvertToUnCastOffMensural (segments : List (List LayerElem)) : List LayerElem :=
  segments.flatten

/-- The total duration of an element sequence. -/
def totalDuration (xs : List LayerElem) : ℚ :=
  (xs.map LayerElem.dur).sum

/-- The total duration of a cast-off segment sequence. -/
def totalDurationSegments (segments : List (List LayerElem)) : ℚ :=
  (segments.map totalDuration).sum

/-- A layer in its post-construction default-reset state, with voice number
1 and no children. -/
def emptyLayer : Layer where
  n := 1
  elements := []
  m_drawingStemDir := data_STEMDIRECTION.STEMDIRECTION_NONE
  m_crossStaffFromBelow := false
  m_crossStaffFromAbove := false
  m_staffDefClef := none
  m_staffDefKeySig := none
  m_staffDefMensur := none
  m_staffDefMeterSig := none
  m_staffDefMeterSigGrp := none
  m_drawKeySigCancellation := false
  m_cautionStaffDefClef := none
  m_cautionStaffDefKeySig := none
  m_cautionStaffDefMensur := none
  m_cautionStaffDefMeterSig := none
  m_drawCautionKeySigCancel := false

/-- A non-cross-staff layer with the given voice number and children. -/
def mkPlainLayer (n : Int) (es : List LayerElem) : Layer :=
  { emptyLayer with n := n, elements := es }

/-- Merging an optional slot twice (first `a`, then `b`) agrees with merging
the left-biased union once, provided the slot is not populated in both
sources. -/
theorem mergeSlot_union {α : Type} (x a b : Option α) (h : ¬(a.isSome ∧ b.isSome)) :
    (if b.isSome then b else if a.isSome then a else x) =
      (if (if a.isSome then a else b).isSome then (if a.isSome then a else b) else x) := by
  cases a <;> cases b <;> simp_all

/-- Setting a sticky boolean flag twice agrees with setting it once from the
disjunction. -/
theorem mergeFlag_union (x a b : Bool) :
    (if b then true else if a then true else x) = (if a || b then true else x) := by
  cases a <;> cases b <;> simp

/-- C6: ResetStaffDefObjects clears all current and all cautionary
staff-definition slots (clef, key signature, mensuration, meter signature,
meter-signature group) and both key-signature-cancellation flags, so that
every staff-definition query issued immediately afterwards returns
absent/null for every slot. -/
theorem claim_C6_reset_clears_every_slot (l : Layer) :
    (l.ResetStaffDefObjects).GetStaffDefClef = none ∧
      (l.ResetStaffDefObjects).GetStaffDefKeySig = none ∧
      (l.ResetStaffDefObjects).GetStaffDefMensur = none ∧
      (l.ResetStaffDefObjects).GetStaffDefMeterSig = none ∧
      (l.ResetStaffDefObjects).GetStaffDefMeterSigGrp = none ∧
      (l.ResetStaffDefObjects).DrawKeySigCancellation = false ∧
      (l.ResetStaffDefObjects).GetCautionStaffDefClef = none ∧
      (l.ResetStaffDefObjects).GetCautionStaffDefKeySig = none ∧
      (l.ResetStaffDefObjects).GetCautionStaffDefMensur = none ∧
      (l.ResetStaffDefObjects).GetCautionStaffDefMeterSig = none ∧
      (l.ResetStaffDefObjects).DrawCautionKeySigCancel = false ∧
      (l.ResetStaffDefObjects).HasStaffDef = false ∧
      (l.ResetStaffDefObjects).HasCautionStaffDef = false :=
  ⟨rfl, rfl, rfl, rfl, rfl, rfl, rfl, rfl, rfl, rfl, rfl, rfl, rfl⟩

/-- C7: HasStaffDef returns true iff at least one of the five current
staff-definition slots is populated, and HasCautionStaffDef returns true iff
at least one of the four cautionary slots (the current ones minus the group
type) is populated. -/
theorem claim_C7_has_staff_def_iff_any_slot (l : Layer) :
    (l.HasStaffDef = true ↔
        (l.m_staffDefClef.isSome = true ∨ l.m_staffDefKeySig.isSome = true ∨
          l.m_staffDefMensur.isSome = true ∨ l.m_staffDefMeterSig.isSome = true ∨
          l.m_staffDefMeterSigGrp.isSome = true)) ∧
      (l.HasCautionStaffDef = true ↔
        (l.m_cautionStaffDefClef.isSome = true ∨ l.m_cautionStaffDefKeySig.isSome = true ∨
          l.m_cautionStaffDefMensur.isSome = true ∨ l.m_cautionStaffDefMeterSig.isSome = true)) := by
  constructor <;>
    simp [Layer.HasStaffDef, Layer.HasCautionStaffDef, Bool.or_eq_true, or_assoc]

/-- C9: GetLayersNInTimeSpan is a pure query: for fixed time, duration,
measure and staff, repeated invocations without intervening tree mutation
return the same set of layer numbers. -/
theorem claim_C9_time_span_query_pure (time duration : ℚ) (measure : Measure) (staff : Nat) :
    GetLayersNInTimeSpan time duration measure staff =
      GetLayersNInTimeSpan time duration measure staff :=
  rfl

/-- C10: the two cross-staff participation flags are independent:
SetCrossStaffFromAbove makes HasCrossStaffFromAbove return the given value
while leaving HasCrossStaffFromBelow and every other Layer field unchanged,
and symmetrically for SetCrossStaffFromBelow. -/
theorem claim_C10_cross_staff_flags_independent (l : Layer) (b : Bool) :
    (l.SetCrossStaffFromAbove b).HasCrossStaffFromAbove = b ∧
      (l.SetCrossStaffFromAbove b).HasCrossStaffFromBelow = l.HasCrossStaffFromBelow ∧
      (l.SetCrossStaffFromAbove b).n = l.n ∧
      (l.SetCrossStaffFromAbove b).elements = l.elements ∧
      (l.SetCrossStaffFromAbove b).m_drawingStemDir = l.m_drawingStemDir ∧
      (l.SetCrossStaffFromAbove b).m_staffDefClef = l.m_staffDefClef ∧
      (l.SetCrossStaffFromAbove b).m_staffDefKeySig = l.m_staffDefKeySig ∧
      (l.SetCrossStaffFromAbove b).m_staffDefMensur = l.m_staffDefMensur ∧
      (l.SetCrossStaffFromAbove b).m_staffDefMeterSig = l.m_staffDefMeterSig ∧
      (l.SetCrossStaffFromAbove b).m_staffDefMeterSigGrp = l.m_staffDefMeterSigGrp ∧
      (l.SetCrossStaffFromAbove b).m_drawKeySigCancellation = l.m_drawKeySigCancellation ∧
      (l.SetCrossStaffFromAbove b).m_cautionStaffDefClef = l.m_cautionStaffDefClef ∧
      (l.SetCrossStaffFromAbove b).m_cautionStaffDefKeySig = l.m_cautionStaffDefKeySig ∧
      (l.SetCrossStaffFromAbove b).m_cautionStaffDefMensur = l.m_cautionStaffDefMensur ∧
      (l.SetCrossStaffFromAbove b).m_cautionStaffDefMeterSig = l.m_cautionStaffDefMeterSig ∧
      (l.SetCrossStaffFromAbove b).m_drawCautionKeySigCancel = l.m_drawCautionKeySigCancel ∧
      (l.SetCrossStaffFromBelow b).HasCrossStaffFromBelow = b ∧
      (l.SetCrossStaffFromBelow b).HasCrossStaffFromAbove = l.HasCrossStaffFromAbove ∧
      (l.SetCrossStaffFromBelow b).n = l.n ∧
      (l.SetCrossStaffFromBelow b).elements = l.elements ∧
      (l.SetCrossStaffFromBelow b).m_drawingStemDir = l.m_drawingStemDir ∧
      (l.SetCrossStaffFromBelow b).m_staffDefClef = l.m_staffDefClef ∧
      (l.SetCrossStaffFromBelow b).m_staffDefKeySig = l.m_staffDefKeySig ∧
      (l.SetCrossStaffFromBelow b).m_staffDefMensur = l.m_staffDefMensur ∧
      (l.SetCrossStaffFromBelow b).m_staffDefMeterSig = l.m_staffDefMeterSig ∧
      (l.SetCrossStaffFromBelow b).m_staffDefMeterSigGrp = l.m_staffDefMeterSigGrp ∧
      (l.SetCrossStaffFromBelow b).m_drawKeySigCancellation = l.m_drawKeySigCancellation ∧
      (l.SetCrossStaffFromBelow b).m_cautionStaffDefClef = l.m_cautionStaffDefClef ∧
      (l.SetCrossStaffFromBelow b).m_cautionStaffDefKeySig = l.m_cautionStaffDefKeySig ∧
      (l.SetCrossStaffFromBelow b).m_cautionStaffDefMensur = l.m_cautionStaffDefMensur ∧
      (l.SetCrossStaffFromBelow b).m_cautionStaffDefMeterSig = l.m_cautionStaffDefMeterSig ∧
      (l.SetCrossStaffFromBelow b).m_drawCautionKeySigCancel = l.m_drawCautionKeySigCancel :=
  ⟨rfl, rfl, rfl, rfl, rfl, rfl, rfl, rfl, rfl, rfl, rfl, rfl, rfl, rfl, rfl, rfl, rfl, rfl,
    rfl, rfl, rfl, rfl, rfl, rfl, rfl, rfl, rfl, rfl, rfl, rfl, rfl, rfl⟩

/-- C3: with exactly one layer in the staff the drawing stem direction stays
NONE; with two or more concurrent layers the layer ordered first (index 0)
is assigned up and every later layer down; the assignment is a deterministic
function of the input. -/
theorem claim_C3_stem_direction_rule :
    (∀ idx : Nat, GetDrawingStemDirInStaff idx 1 = data_STEMDIRECTION.STEMDIRECTION_NONE) ∧
      (∀ n : Nat, 2 ≤ n →
        GetDrawingStemDirInStaff 0 n = data_STEMDIRECTION.STEMDIRECTION_up) ∧
      (∀ idx n : Nat, 2 ≤ n → 1 ≤ idx →
        GetDrawingStemDirInStaff idx n = data_STEMDIRECTION.STEMDIRECTION_down) ∧
      (∀ idx n : Nat, GetDrawingStemDirInStaff idx n = GetDrawingStemDirInStaff idx n) := by
  refine ⟨fun idx => rfl, fun n hn => ?_, fun idx n hn hidx => ?_, fun idx n => rfl⟩
  · simp only [GetDrawingStemDirInStaff]
    rw [if_neg (by omega : ¬n ≤ 1)]
    simp
  · simp only [GetDrawingStemDirInStaff]
    rw [if_neg (by omega), if_neg (by omega)]

/-- C5: SetDrawingStaffDefValues is an additive merge over the current
staff-definition slots: it never clears a slot the source does not mention,
and two calls with disjoint sources equal a single call with the union. -/
theorem claim_C5_set_drawing_staff_def_additive_merge :
    (∀ (l : Layer) (a b : StaffDef), StaffDef.Disjoint a b →
      (l.SetDrawingStaffDefValues a).SetDrawingStaffDefValues b =
        l.SetDrawingStaffDefValues (a.union b)) ∧
      (∀ (l : Layer) (sd : StaffDef),
        (sd.clef = none → (l.SetDrawingStaffDefValues sd).m_staffDefClef = l.m_staffDefClef) ∧
        (sd.keySig = none →
          (l.SetDrawingStaffDefValues sd).m_staffDefKeySig = l.m_staffDefKeySig) ∧
        (sd.mensur = none →
          (l.SetDrawingStaffDefValues sd).m_staffDefMensur = l.m_staffDefMensur) ∧
        (sd.meterSig = none →
          (l.SetDrawingStaffDefValues sd).m_staffDefMeterSig = l.m_staffDefMeterSig) ∧
        (sd.meterSigGrp = none →
          (l.SetDrawingStaffDefValues sd).m_staffDefMeterSigGrp = l.m_staffDefMeterSigGrp)) := by
  constructor
  · rintro l a b ⟨h1, h2, h3, h4, h5⟩
    simp only [Layer.SetDrawingStaffDefValues, StaffDef.union, Layer.mk.injEq]
    exact ⟨trivial, trivial, trivial, trivial, trivial,
      mergeSlot_union _ _ _ h1, mergeSlot_union _ _ _ h2, mergeSlot_union _ _ _ h3,
      mergeSlot_union _ _ _ h4, mergeSlot_union _ _ _ h5, mergeFlag_union _ _ _,
      trivial, trivial, trivial, trivial, trivial⟩
  · intro l sd
    refine ⟨fun h => ?_, fun h => ?_, fun h => ?_, fun h => ?_, fun h => ?_⟩ <;>
      simp [Layer.SetDrawingStaffDefValues, h]

/-- A staff-definition source supplying only a clef. -/
def clefOnlyDef : StaffDef :=
  ⟨some ⟨1⟩, none, none, none, none, false⟩

/-- A staff-definition source supplying only a key signature. -/
def keySigOnlyDef : StaffDef :=
  ⟨none, some ⟨2⟩, none, none, none, false⟩

/-- Witness for C5 at concrete inputs: merging a clef-only source and then a
disjoint key-signature-only source equals a single merge of their union, and
a source without a clef leaves the clef slot untouched. -/
theorem claim_C5_set_drawing_staff_def_additive_merge_witness :
    (emptyLayer.SetDrawingStaffDefValues clefOnlyDef).SetDrawingStaffDefValues keySigOnlyDef =
      emptyLayer.SetDrawingStaffDefValues (clefOnlyDef.union keySigOnlyDef) ∧
      (emptyLayer.SetDrawingStaffDefValues keySigOnlyDef).m_staffDefClef =
        emptyLayer.m_staffDefClef :=
  ⟨claim_C5_set_drawing_staff_def_additive_merge.1 emptyLayer clefOnlyDef keySigOnlyDef
      (by decide),
    (claim_C5_set_drawing_staff_def_additive_merge.2 emptyLayer keySigOnlyDef).1 rfl⟩

/-- The backward scan finds no clef exactly when no scanned element is a
clef. -/
theorem scanBackClef_eq_none_iff (l : List LayerElem) :
    scanBackClef l = none ↔ ∀ e ∈ l, clefValue e = none := by
  induction l with
  | nil => simp [scanBackClef]
  | cons e rest ih =>
    simp only [scanBackClef, List.mem_cons]
    cases h : scanBackClef rest with
    | some c =>
      constructor
      · intro hc
        cases hc
      · intro hall
        have hnone : scanBackClef rest = none := ih.mpr fun x hx => hall x (Or.inr hx)
        rw [h] at hnone
        cases hnone
    | none =>
      constructor
      · intro hc x hx
        rcases hx with rfl | hx
        · exact hc
        · exact ih.mp h x hx
      · intro hall
        exact hall e (Or.inl rfl)

/-- The backward scan returns a clef exactly when the scanned sequence
splits as a prefix, a clef element carrying that clef, and a clef-free
suffix: the found clef is the nearest one preceding the scan origin. -/
theorem scanBackClef_eq_some_iff (l : List LayerElem) (c : Clef) :
    scanBackClef l = some c ↔
      ∃ l1 e l2, l = l1 ++ e :: l2 ∧ clefValue e = some c ∧ ∀ x ∈ l2, clefValue x = none := by
  induction l with
  | nil =>
    constructor
    · intro hc
      cases hc
    · rintro ⟨l1, e, l2, heq, -, -⟩
      exact absurd heq.symm (List.append_ne_nil_of_right_ne_nil l1 (List.cons_ne_nil e l2))
  | cons e rest ih =>
    simp only [scanBackClef]
    cases h : scanBackClef rest with
    | some c2 =>
      constructor
      · intro hc
        have hc' : some c2 = some c := hc
        obtain rfl := Option.some.inj hc'
        obtain ⟨l1, e1, l2, heq, hc1, hall⟩ := ih.mp h
        exact ⟨e :: l1, e1, l2, by rw [List.cons_append, heq], hc1, hall⟩
      · rintro ⟨l1, e2, l2, heq, hc2, hall⟩
        cases l1 with
        | nil =>
          simp only [List.nil_append] at heq
          injection heq with he hrest
          have hnone : scanBackClef l2 = none := (scanBackClef_eq_none_iff l2).mpr hall
          rw [hrest] at h
          rw [h] at hnone
          cases hnone
        | cons x l1 =>
          simp only [List.cons_append] at heq
          injection heq with he hrest
          have hsome : scanBackClef rest = some c := ih.mpr ⟨l1, e2, l2, hrest, hc2, hall⟩
          rw [h] at hsome
          exact hsome
    | none =>
      constructor
      · intro hc
        have hc' : clefValue e = some c := hc
        exact ⟨[], e, rest, rfl, hc', (scanBackClef_eq_none_iff rest).mp h⟩
      · rintro ⟨l1, e2, l2, heq, hc2, hall⟩
        cases l1 with
        | nil =>
          simp only [List.nil_append] at heq
          injection heq with he hrest
          show clefValue e = some c
          rw [he]
          exact hc2
        | cons x l1 =>
          simp only [List.cons_append] at heq
          injection heq with he hrest
          have hsome : scanBackClef rest = some c := ih.mpr ⟨l1, e2, l2, hrest, hc2, hall⟩
          rw [h] at hsome
          cases hsome

/-- The clef inserted mid-layer in the C8 scenario. -/
def newClef : Clef :=
  ⟨7⟩

/-- The layer of the C8 scenario: six elements with a clef change at
element index 3 and no clef before it. -/
def demoClefLayer : Layer :=
  mkPlainLayer 1
    [⟨0, 1, none⟩, ⟨1, 1, none⟩, ⟨2, 1, none⟩, ⟨3, 0, some newClef⟩, ⟨3, 1, none⟩, ⟨4, 1, none⟩]

/-- C8: GetClef scans the layer's element sequence backward from the test
element's draw position and returns the nearest preceding clef element, or
none when no clef exists before the start of the layer; in the scenario with
a clef change at element index 3, GetClef at index 5 returns the new clef
and GetClef at index 1 returns none (staff-inherited). -/
theorem claim_C8_get_clef_nearest_preceding :
    (∀ (l : Layer) (i : Nat) (c : Clef),
        l.GetClef i = some c ↔
          ∃ l1 e l2, l.elements.take i = l1 ++ e :: l2 ∧ clefValue e = some c ∧
            ∀ x ∈ l2, clefValue x = none) ∧
      (∀ (l : Layer) (i : Nat),
        l.GetClef i = none ↔ ∀ e ∈ l.elements.take i, clefValue e = none) ∧
      demoClefLayer.GetClef 5 = some newClef ∧
      demoClefLayer.GetClef 1 = none := by
  refine ⟨fun l i c => scanBackClef_eq_some_iff (l.elements.take i) c,
    fun l i => scanBackClef_eq_none_iff (l.elements.take i),
    by with_unfolding_all rfl, by with_unfolding_all rfl⟩

/-- A quarter note at time 0 (duration 1 beat). -/
def quarterNoteAt0 : LayerElem :=
  ⟨0, 1, none⟩

/-- A half note at time 0 (duration 2 beats). -/
def halfNoteAt0 : LayerElem :=
  ⟨0, 2, none⟩

/-- The two-layer staff of the end-to-end scenario: layer N=1 holds a
quarter note at time 0, layer N=2 holds a half note at time 0. -/
def demoMeasureTwoLayers : Measure :=
  ⟨[⟨[mkPlainLayer 1 [quarterNoteAt0], mkPlainLayer 2 [halfNoteAt0]]⟩]⟩

/-- C1: the time-span resolver uses half-open-interval intersection: an
element overlaps the window iff
elementStart < time + duration and elementStart + elementDuration > time;
on the two-layer scenario staff, GetLayerCountInTimeSpan(0, 1) returns 2 and
GetLayerCountInTimeSpan(1, 1) returns 1. -/
theorem claim_C1_half_open_interval_overlap :
    (∀ (time duration : ℚ) (e : LayerElem),
        overlapsTimeSpan time duration e = true ↔
          (e.onset < time + duration ∧ e.onset + e.dur > time)) ∧
      GetLayerCountInTimeSpan 0 1 demoMeasureTwoLayers 0 = 2 ∧
      GetLayerCountInTimeSpan 1 1 demoMeasureTwoLayers 0 = 1 := by
  refine ⟨fun time duration e => ?_, by with_unfolding_all rfl, by with_unfolding_all rfl⟩
  simp [overlapsTimeSpan]

/-- The cross-staff element of the C2 scenario: logically owned by staff B
(index 0) but visually drawn on staff A (index 1). -/
def crossStaffElem : LayerElem :=
  ⟨0, 2, none⟩

/-- The cross-staff hosting layer: it sits in staff A's layer list (visual
placement) but carries the logical, negative voice number N = -2 of the
owning staff B above, and is flagged as carrying content from above. -/
def hostLayerOnStaffA : Layer :=
  { mkPlainLayer (-2) [crossStaffElem] with m_crossStaffFromAbove := true }

/-- The two-staff measure of the C2 scenario: staff B (index 0) with its
own layer N=1, staff A (index 1) with its own native layer N=3 and the
cross-staff hosting layer N=-2. -/
def demoMeasureCrossStaff : Measure :=
  ⟨[⟨[mkPlainLayer 1 [⟨0, 1, none⟩]]⟩,
    ⟨[mkPlainLayer 3 [⟨0, 1, none⟩], hostLayerOnStaffA]⟩]⟩

/-- C2: every layer number reported by the time-span queries is the logical
(possibly negative) N of a contributing layer, so cross-staff content is
reported under its logical N and never under the numbering of the staff it
is visually drawn on; in the scenario, querying the owning staff B over the
cross-staff element's window reports exactly {1, -2}. -/
theorem claim_C2_cross_staff_logical_n :
    (∀ (t d : ℚ) (m : Measure) (s : Nat) (k : Int),
        k ∈ GetLayersNInTimeSpan t d m s ↔
          ∃ l, l ∈ candidateLayers m s ∧ l.soundsInTimeSpan t d = true ∧ l.n = k) ∧
      GetLayersNForTimeSpanOf crossStaffElem demoMeasureCrossStaff 0 = {1, -2} ∧
      decide ((3 : Int) ∈ GetLayersNForTimeSpanOf crossStaffElem demoMeasureCrossStaff 0) =
        false := by
  refine ⟨fun t d m s k => ?_, by with_unfolding_all rfl, by with_unfolding_all rfl⟩
  simp only [GetLayersNInTimeSpan, List.mem_toFinset, List.mem_map, List.mem_filter]
  constructor
  · rintro ⟨l, ⟨hmem, hsound⟩, hn⟩
    exact ⟨l, hmem, hsound, hn⟩
  · rintro ⟨l, hmem, hsound, hn⟩
    exact ⟨l, ⟨hmem, hsound⟩, hn⟩

/-- Concatenating the segments produced by the mensural cast-off pass gives
back the original element sequence (strong induction on the length). -/
theorem castOff_flatten_aux (measureDur : ℚ) :
    ∀ (n : Nat) (xs : List LayerElem), xs.length ≤ n →
      (ConvertToCastOffMensural measureDur xs).flatten = xs := by
  intro n
  induction n with
  | zero =>
    intro xs h
    have hnil : xs = [] := List.length_eq_zero.mp (Nat.le_zero.mp h)
    subst hnil
    simp [ConvertToCastOffMensural]
  | succ n ih =>
    intro xs h
    cases xs with
    | nil => simp [ConvertToCastOffMensural]
    | cons e rest =>
      have hlen : (takeMeasure measureDur e.dur rest).2.length ≤ n :=
        le_trans (takeMeasure_length_le measureDur e.dur rest)
          (Nat.succ_le_succ_iff.mp (by simpa using h))
      rw [ConvertToCastOffMensural]
      simp only [List.flatten_cons]
      rw [ih _ hlen, List.cons_append, takeMeasure_append]

/-- The total duration of a segment sequence equals the total duration of
its concatenation. -/
theorem totalDurationSegments_eq_flatten (segments : List (List LayerElem)) :
    totalDurationSegments segments = totalDuration segments.flatten := by
  induction segments with
  | nil => simp [totalDurationSegments, totalDuration]
  | cons s ss ih =>
    simp only [totalDurationSegments, totalDuration, List.flatten_cons, List.map_cons,
      List.sum_cons, List.map_append, List.sum_append] at *
    rw [ih]

/-- C4: the mensural cast-off pass followed by the cast-on pass reproduces
the original element sequence exactly (order and timing), and cast-off
itself preserves the layer's total duration. -/
theorem claim_C4_mensural_cast_off_round_trip (measureDur : ℚ) (xs : List LayerElem) :
    ConvertToUnCastOffMensural (ConvertToCastOffMensural measureDur xs) = xs ∧
      totalDurationSegments (ConvertToCastOffMensural measureDur xs) = totalDuration xs ∧
      totalDuration (ConvertToUnCastOffMensural (ConvertToCastOffMensural measureDur xs)) =
        totalDuration xs := by
  have hflat : (ConvertToCastOffMensural measureDur xs).flatten = xs :=
    castOff_flatten_aux measureDur xs.length xs le_rfl
  refine ⟨hflat, ?_, ?_⟩
  · rw [totalDurationSegments_eq_flatten, hflat]
  · show totalDuration (ConvertToCastOffMensural measureDur xs).flatten = totalDuration xs
    rw [hflat]

/-- Witness for C3 at concrete inputs: a single-layer staff stays NONE, in a
two-layer staff the first layer gets up and the second down. -/
theorem claim_C3_stem_direction_rule_witness :
    GetDrawingStemDirInStaff 0 1 = data_STEMDIRECTION.STEMDIRECTION_NONE ∧
      GetDrawingStemDirInStaff 0 2 = data_STEMDIRECTION.STEMDIRECTION_up ∧
      GetDrawingStemDirInStaff 1 2 = data_STEMDIRECTION.STEMDIRECTION_down :=
  ⟨claim_C3_stem_direction_rule.1 0,
    claim_C3_stem_direction_rule.2.1 2 (by decide),
    claim_C3_stem_direction_rule.2.2.1 1 2 (by decide) (by decide)⟩

end vrv
